import Mathlib

set_option maxRecDepth 10000

/-!
Verification development for the Titan-cnc native image-processing core
(`app/src/main/cpp/native-lib.cpp`).

The source file is a JNI shim over three OpenCV calls:

* `nativeProcessImage`  : converts the mat to grayscale into a fresh local
  `gray` mat and returns the string `"Image processed: <cols>x<rows>"`.
* `nativeApplyDithering`: converts the mat to grayscale in place when it has
  more than one channel, then dispatches on the `algorithm` integer:
  `0 → cv::threshold(mat, mat, 128, 255, THRESH_BINARY)`,
  `1 → cv::adaptiveThreshold(mat, mat, 255, ADAPTIVE_THRESH_GAUSSIAN_C,
        THRESH_BINARY, 11, 2)`,
  `2 → cv::threshold(mat, mat, 0, 255, THRESH_BINARY | THRESH_OTSU)`,
  any other value → no further operation.
* `nativeFindContours` : runs `cv::findContours(mat, contours, hierarchy,
  RETR_TREE, CHAIN_APPROX_SIMPLE)` and returns `contours.size()`.

The shallow embedding below models the pixel buffer (`cv::Mat` viewed as an
8-bit image) as a structure over `List Nat`, and each OpenCV primitive by its
documented semantics: `cvtColor BGR2GRAY` is the fixed-point luma reduction
with coefficients `R:4899, G:9617, B:1868` descaled by `2^14`;
`THRESH_BINARY` maps a pixel to `maxval` exactly when it is strictly greater
than the threshold; Otsu maximizes inter-class variance over the histogram
(embedded in exact integer arithmetic); the contour tracer is modelled from
the specification's border-following design, since the library implementation
is not part of this repository.
-/

/-- A pixel buffer: `width × height` image with `channels` interleaved 8-bit
components per pixel, row-major data, mirroring the `cv::Mat` view used by the
shim. -/
structure Mat where
  width : Nat
  height : Nat
  channels : Nat
  data : List Nat
deriving DecidableEq, Repr

/-- A buffer is valid when it is non-empty, has 1 or 3 channels, carries
exactly `width * height * channels` components, and every component is an
8-bit value. -/
def validMat (m : Mat) : Prop :=
  0 < m.width ∧ 0 < m.height ∧ (m.channels = 1 ∨ m.channels = 3) ∧
    m.data.length = m.width * m.height * m.channels ∧ ∀ p ∈ m.data, p ≤ 255

instance : DecidablePred validMat := fun m => by
  unfold validMat; infer_instance

/-- Fixed-point BGR→gray luma of one pixel, as in the library's
`cvtColor(..., COLOR_BGR2GRAY)` on 8-bit data: descale of
`4899·R + 9617·G + 1868·B` by 14 bits with rounding. -/
def bgr2grayPixel (b g r : Nat) : Nat :=
  (4899 * r + 9617 * g + 1868 * b + 8192) / 16384

/-- Reduce interleaved B,G,R component triples to single gray components. -/
def grayData : List Nat → List Nat
  | b :: g :: r :: rest => bgr2grayPixel b g r :: grayData rest
  | _ => []

/-- Grayscale reduction of a 3-channel buffer: one gray component per pixel. -/
def cvtGray (m : Mat) : Mat :=
  { m with channels := 1, data := grayData m.data }

/-- The buffer as the dithering entry point leaves it after its first step:
converted to grayscale when it has more than one channel, untouched
otherwise (`if (mat.channels() > 1) cvtColor(mat, mat, COLOR_BGR2GRAY)`). -/
def toGray (m : Mat) : Mat :=
  if 1 < m.channels then cvtGray m else m

/-- `cv::threshold(src, dst, t, maxval, THRESH_BINARY)`: a pixel strictly
greater than `t` becomes `maxval`, every other pixel becomes `0`. -/
def threshold (t maxval : Nat) (m : Mat) : Mat :=
  { m with data := m.data.map fun p => if t < p then maxval else 0 }

/-- In-bounds pixel read of a single-channel buffer at `(x, y)`. -/
def pixAt (m : Mat) (x y : Nat) : Nat :=
  m.data.getD (y * m.width + x) 0

/-- Clamp an integer coordinate into `[0, hi - 1]` (replicated border). -/
def clampCoord (v : Int) (hi : Nat) : Nat :=
  (max 0 (min v ((hi : Int) - 1))).toNat

/-- Border-replicated pixel read of a single-channel buffer. -/
def pixAtCl (m : Mat) (x y : Int) : Nat :=
  m.data.getD (clampCoord y m.height * m.width + clampCoord x m.width) 0

/-- Integer-scaled separable Gaussian weight. Modelled from the spec:
`AdaptiveLocal` uses a "Gaussian-weighted local mean" over an 11-pixel
window; the library computes the floating-point kernel
`getGaussianKernel(11, σ=2)`, which is not part of this repository, so it is
approximated here by the binomial row `choose 10 k` (total weight `2^10` per
axis). No claim depends on the exact weight values. -/
def gaussWeight (k : Nat) : Nat := Nat.choose 10 k

/-- Gaussian-weighted local mean of the 11×11 neighbourhood of `(x, y)`,
with replicated borders and rounding to nearest (total weight `2^20`). -/
def gaussMean (m : Mat) (x y : Nat) : Nat :=
  (((List.range 11).map fun j =>
      ((List.range 11).map fun i =>
        gaussWeight i * gaussWeight j *
          pixAtCl m ((x : Int) + (i : Int) - 5) ((y : Int) + (j : Int) - 5)).sum).sum
    + 524288) / 1048576

/-- `cv::adaptiveThreshold(src, dst, 255, ADAPTIVE_THRESH_GAUSSIAN_C,
THRESH_BINARY, 11, 2)`: each pixel is compared against its Gaussian local
mean minus the offset 2; in the library's integer form the pixel becomes
`255` exactly when `src + 2 > mean`, else `0`. -/
def adaptiveThreshold (m : Mat) : Mat :=
  { m with data :=
      (List.range m.height).flatMap fun y =>
        (List.range m.width).map fun x =>
          if gaussMean m x y < pixAt m x y + 2 then 255 else 0 }

/-- Number of pixels of value at most `t` (histogram prefix weight `w0`). -/
def w0 (d : List Nat) (t : Nat) : Nat :=
  ((List.range (t + 1)).map fun v => d.count v).sum

/-- Sum of pixel values at most `t`, value-weighted (histogram prefix
moment). -/
def s0 (d : List Nat) (t : Nat) : Nat :=
  ((List.range (t + 1)).map fun v => v * d.count v).sum

/-- A cut `t` is valid when both classes `{p ≤ t}` and `{p > t}` are
non-empty — the exact-arithmetic counterpart of the library's
`FLT_EPSILON` guard on the class probabilities. -/
def validCut (d : List Nat) (t : Nat) : Prop :=
  0 < w0 d t ∧ w0 d t < d.length

instance (d : List Nat) (t : Nat) : Decidable (validCut d t) := by
  unfold validCut; infer_instance

/-- Numerator of the between-class variance at cut `t`, in exact integer
arithmetic: with `N` pixels of total value `S`, the variance
`q₁q₂(μ₁-μ₂)²` equals `(s0·N − S·w0)² / (N² · w0·(N−w0))`; the constant
factor `N²` is cut-independent and dropped. -/
def sigmaNum (d : List Nat) (t : Nat) : Int :=
  ((s0 d t : Int) * (d.length : Int) - (d.sum : Int) * (w0 d t : Int)) ^ 2

/-- Denominator of the between-class variance at cut `t` (up to the constant
`N²`): the product of the two class weights. -/
def sigmaDen (d : List Nat) (t : Nat) : Int :=
  (w0 d t : Int) * ((d.length : Int) - (w0 d t : Int))

/-- One left-to-right pass over the candidate cuts, keeping the first cut of
strictly maximal between-class variance, as the library's Otsu loop does
(`if (sigma > max_sigma)` after the class-weight guard). The running best is
kept as `(cut, numerator, denominator)`; fractions are compared by
cross-multiplication. -/
def otsuGo (d : List Nat) : List Nat → Nat × Int × Int → Nat × Int × Int
  | [], best => best
  | t :: ts, (bt, bn, bd) =>
    if validCut d t ∧ bn * sigmaDen d t < sigmaNum d t * bd then
      otsuGo d ts (t, sigmaNum d t, sigmaDen d t)
    else
      otsuGo d ts (bt, bn, bd)

/-- Otsu's threshold of the pixel data: the first cut in `0..255` of
strictly maximal between-class variance (0 when no cut splits the data). -/
def otsuThreshold (d : List Nat) : Nat :=
  (otsuGo d (List.range 256) (0, 0, 1)).1

/-- The dithering entry point `nativeApplyDithering` on a dereferenced
buffer: grayscale reduction when multi-channel, then the `switch` on the
algorithm selector. -/
def applyDithering (m : Mat) (alg : Int) : Mat :=
  if alg = 0 then threshold 128 255 (toGray m)
  else if alg = 1 then adaptiveThreshold (toGray m)
  else if alg = 2 then threshold (otsuThreshold (toGray m).data) 255 (toGray m)
  else toGray m

/-- Outcomes observable at the JNI boundary. `nullDereference` stands for the
undefined behaviour of `*(cv::Mat*)matAddr` on a null address;
`invalidBuffer` and `unsupportedChannelLayout` are the specification's error
taxonomy. -/
inductive JniErr where
  | nullDereference
  | invalidBuffer
  | unsupportedChannelLayout
deriving DecidableEq, Repr

/-- The full `nativeApplyDithering` entry point, with the incoming `matAddr`
modelled as an optional buffer. The source performs no validation: the
address is dereferenced unconditionally (undefined behaviour on null, shown
as `nullDereference`), and every dereferenced buffer — including a
zero-sized one — is processed without any error path. -/
def nativeApplyDithering (matRef : Option Mat) (alg : Int) : Except JniErr Mat :=
  match matRef with
  | none => Except.error JniErr.nullDereference
  | some m => Except.ok (applyDithering m alg)

/-- The `nativeProcessImage` entry point: `cvtColor(mat, gray, BGR2GRAY)`
writes into the fresh local `gray` and only a status string built from the
original buffer's dimensions is returned; the caller's buffer is returned
unchanged (second component). The library's `cvtColor` asserts a 3- or
4-channel source, so any other layout raises instead of returning the
string. -/
def nativeProcessImage (m : Mat) : Except JniErr String × Mat :=
  if m.channels = 3 ∨ m.channels = 4 then
    (Except.ok ("Image processed: " ++ toString m.width ++ "x" ++ toString m.height), m)
  else
    (Except.error JniErr.unsupportedChannelLayout, m)

/-- Foreground test at integer coordinates: in-bounds and non-zero
("non-two-level content is tolerated by treating non-zero as foreground"). -/
def fgAt (m : Mat) (p : Int × Int) : Bool :=
  decide (0 ≤ p.1) && decide (p.1 < (m.width : Int)) &&
  decide (0 ≤ p.2) && decide (p.2 < (m.height : Int)) &&
  (m.data.getD (p.2.toNat * m.width + p.1.toNat) 0 != 0)

/-- The eight Moore-neighbourhood steps in clockwise order, starting east,
in image coordinates (y grows downward). -/
def mooreDirs : List (Int × Int) :=
  [(1, 0), (1, 1), (0, 1), (-1, 1), (-1, 0), (-1, -1), (0, -1), (1, -1)]

/-- Direction vector of clockwise index `k`. -/
def dirVec (k : Nat) : Int × Int := mooreDirs.getD (k % 8) (1, 0)

/-- Modelled from the spec: one step of border following — rotate clockwise
through the eight neighbours of `cur`, starting just past the backtrack
direction `bdir`, and move to the first foreground neighbour, returning it
with the new backtrack direction. `cv::findContours`' own border following
is not part of this repository. -/
def findNext (m : Mat) (cur : Int × Int) (bdir : Nat) : Option ((Int × Int) × Nat) :=
  (List.range 8).findSome? fun k =>
    let d := (bdir + 1 + k) % 8
    let q := (cur.1 + (dirVec d).1, cur.2 + (dirVec d).2)
    if fgAt m q then some (q, (d + 4) % 8) else none

/-- Modelled from the spec: follow the boundary from `start` until the trace
returns to it, collecting visited pixels; the fuel bound makes the recursion
total and is large enough for any boundary of the image. -/
def traceBoundary (m : Mat) :
    Nat → Int × Int → Int × Int → Nat → List (Int × Int) → List (Int × Int)
  | 0, _, _, _, acc => acc.reverse
  | Nat.succ fuel, start, cur, bdir, acc =>
    match findNext m cur bdir with
    | none => acc.reverse
    | some (q, nb) =>
      if q = start then acc.reverse
      else traceBoundary m fuel start q nb (q :: acc)

/-- Modelled from the spec: the full boundary through a starting pixel,
beginning the clockwise neighbour search from the west (the raster scan
reaches the pixel from the left). -/
def traceFrom (m : Mat) (p : Int × Int) : List (Int × Int) :=
  p :: traceBoundary m (4 * (m.width * m.height) + 8) p p 4 []

/-- Direction of the step from `a` to `b`. -/
def dirOf (a b : Int × Int) : Int × Int := (b.1 - a.1, b.2 - a.2)

/-- Modelled from the spec: `CHAIN_APPROX_SIMPLE`-style run-length
compression — drop interior points of straight segments, keeping
direction-change vertices. -/
def compressGo : Int × Int → List (Int × Int) → List (Int × Int)
  | _, [] => []
  | _, [b] => [b]
  | prev, b :: c :: rest =>
    if dirOf prev b = dirOf b c then compressGo b (c :: rest)
    else b :: compressGo b (c :: rest)

/-- Compress a traced point list, keeping its first point and every
direction-change vertex. -/
def compress : List (Int × Int) → List (Int × Int)
  | [] => []
  | a :: rest => a :: compressGo a rest

/-- A boundary pixel: one of its four direct neighbours is background or
lies outside the image. -/
def isBoundaryPix (m : Mat) (p : Int × Int) : Bool :=
  !(fgAt m (p.1 - 1, p.2)) || !(fgAt m (p.1 + 1, p.2)) ||
  !(fgAt m (p.1, p.2 - 1)) || !(fgAt m (p.1, p.2 + 1))

/-- Raster-scan order over the image: top-to-bottom, left-to-right. -/
def scanOrder (m : Mat) : List (Int × Int) :=
  (List.range m.height).flatMap fun y =>
    (List.range m.width).map fun x => ((x : Int), (y : Int))

/-- Modelled from the spec: one raster-scan step of the contour search. On an
unvisited foreground boundary pixel, trace its full boundary, append the
compressed contour in discovery order and mark the traced pixels visited. -/
def scanStep (m : Mat) (st : List (List (Int × Int)) × List (Int × Int))
    (p : Int × Int) : List (List (Int × Int)) × List (Int × Int) :=
  if fgAt m p && !(st.2.contains p) && isBoundaryPix m p then
    (st.1 ++ [compress (traceFrom m p)], st.2 ++ traceFrom m p)
  else st

/-- Modelled from the spec: all contours of the image in discovery order. -/
def rawContours (m : Mat) : List (List (Int × Int)) :=
  ((scanOrder m).foldl (scanStep m) ([], [])).1

/-- Even-odd enclosure test: `q` is enclosed by the pixel set of contour `c`
when an odd number of `c`'s pixels lie strictly to its left on its row. -/
def enclosedBy (c : List (Int × Int)) (q : Int × Int) : Bool :=
  (c.filter fun r => r.2 == q.2 && r.1 < q.1).length % 2 == 1

/-- Modelled from the spec: the parent of contour `i` is the most recently
discovered earlier contour enclosing its starting pixel, or none (`-1`). -/
def parentOf (cs : List (List (Int × Int))) (i : Nat) : Int :=
  let q := (cs.getD i []).getD 0 (0, 0)
  match ((List.range i).filter fun j => enclosedBy (cs.getD j []) q).getLast? with
  | none => -1
  | some j => (j : Int)

/-- Modelled from the spec: the `{next sibling, previous sibling, first
child, parent}` record of each contour, indices `-1` standing for "none", in
the layout of the library's `Vec4i` hierarchy. -/
def hierarchyOf (cs : List (List (Int × Int))) : List (Int × Int × Int × Int) :=
  let n := cs.length
  (List.range n).map fun i =>
    let nxt := match (List.range n).find? (fun j =>
        decide (i < j) && (parentOf cs j == parentOf cs i)) with
      | none => -1
      | some j => (j : Int)
    let prv := match ((List.range n).reverse).find? (fun j =>
        decide (j < i) && (parentOf cs j == parentOf cs i)) with
      | none => -1
      | some j => (j : Int)
    let chd := match (List.range n).find? (fun j => parentOf cs j == (i : Int)) with
      | none => -1
      | some j => (j : Int)
    (nxt, prv, chd, parentOf cs i)

/-- Result of one contour-tracing call: the ordered contour sequence and its
hierarchy, produced atomically. -/
structure TraceResult where
  contours : List (List (Int × Int))
  hierarchy : List (Int × Int × Int × Int)
deriving DecidableEq, Repr

/-- Modelled from the spec: `traceContours` — the contours in raster-scan
discovery order together with their nesting hierarchy. -/
def traceContours (m : Mat) : TraceResult :=
  ⟨rawContours m, hierarchyOf (rawContours m)⟩

/-- The `nativeFindContours` entry point: runs the contour trace and returns
`contours.size()`; the caller's buffer is handed back unchanged (the
library's contour search works on an internal copy and `mat` is not written
through). -/
def nativeFindContours (m : Mat) : Int × Mat :=
  (((traceContours m).contours.length : Int), m)

/-! ### Helper lemmas -/

theorem getD_map_of_lt (f : Nat → Nat) :
    ∀ (l : List Nat) (i : Nat), i < l.length →
      ∀ d d', (l.map f).getD i d = f (l.getD i d')
  | [], i, h, _, _ => absurd h (by simp)
  | a :: l, 0, _, d, d' => rfl
  | a :: l, i + 1, h, d, d' =>
    getD_map_of_lt f l i (by simpa using h) d d'

theorem length_map_eq (f : Nat → Nat) (l : List Nat) :
    (l.map f).length = l.length := List.length_map l f

theorem getD_all_zero :
    ∀ (l : List Nat) (i : Nat), (∀ q ∈ l, q = 0) → l.getD i 0 = 0
  | [], i, _ => by cases i <;> rfl
  | a :: l, 0, h => h a (by simp)
  | a :: l, i + 1, h => getD_all_zero l i fun q hq => h q (by simp [hq])

theorem toGray_channels (m : Mat) (h : m.channels = 1 ∨ m.channels = 3) :
    (toGray m).channels = 1 := by
  rcases h with h | h <;> simp [toGray, cvtGray, h]

theorem toGray_of_single (m : Mat) (h : m.channels = 1) : toGray m = m := by
  simp [toGray, h]

theorem threshold_mem (t mv : Nat) (m : Mat) :
    ∀ p ∈ (threshold t mv m).data, p = 0 ∨ p = mv := by
  intro p hp
  simp only [threshold, List.mem_map] at hp
  obtain ⟨q, _, rfl⟩ := hp
  by_cases h : t < q <;> simp [h]

theorem adaptive_mem (m : Mat) :
    ∀ p ∈ (adaptiveThreshold m).data, p = 0 ∨ p = 255 := by
  intro p hp
  simp only [adaptiveThreshold, List.mem_flatMap, List.mem_map] at hp
  obtain ⟨y, -, x, -, rfl⟩ := hp
  by_cases h : gaussMean m x y < pixAt m x y + 2 <;> simp [h]

theorem sigmaNum_nonneg (d : List Nat) (t : Nat) : 0 ≤ sigmaNum d t :=
  sq_nonneg _

theorem sigmaDen_pos (d : List Nat) (t : Nat) (h : validCut d t) :
    0 < sigmaDen d t := by
  obtain ⟨h1, h2⟩ := h
  have a1 : (0 : Int) < (w0 d t : Int) := by exact_mod_cast h1
  have a2 : (0 : Int) < (d.length : Int) - (w0 d t : Int) := by
    have : (w0 d t : Int) < (d.length : Int) := by exact_mod_cast h2
    omega
  exact mul_pos a1 a2

/-- Invariant of the Otsu scan: the running best stays a nonnegative
fraction with positive denominator, never decreases, dominates every valid
cut already examined, and is either the initial state or the score of the
cut it names. -/
theorem otsuGo_inv (d : List Nat) :
    ∀ (ts : List Nat) (bt : Nat) (bn bd : Int), 0 ≤ bn → 0 < bd →
      0 ≤ (otsuGo d ts (bt, bn, bd)).2.1 ∧
      0 < (otsuGo d ts (bt, bn, bd)).2.2 ∧
      bn * (otsuGo d ts (bt, bn, bd)).2.2 ≤ (otsuGo d ts (bt, bn, bd)).2.1 * bd ∧
      (∀ t ∈ ts, validCut d t →
        sigmaNum d t * (otsuGo d ts (bt, bn, bd)).2.2 ≤
          (otsuGo d ts (bt, bn, bd)).2.1 * sigmaDen d t) ∧
      (otsuGo d ts (bt, bn, bd) = (bt, bn, bd) ∨
        ((otsuGo d ts (bt, bn, bd)).2.1 = sigmaNum d (otsuGo d ts (bt, bn, bd)).1 ∧
         (otsuGo d ts (bt, bn, bd)).2.2 = sigmaDen d (otsuGo d ts (bt, bn, bd)).1))
  | [], bt, bn, bd, hbn, hbd => by
    refine ⟨hbn, hbd, le_refl _, ?_, Or.inl rfl⟩
    intro t ht
    simp at ht
  | t :: ts, bt, bn, bd, hbn, hbd => by
    by_cases hc : validCut d t ∧ bn * sigmaDen d t < sigmaNum d t * bd
    · rw [show otsuGo d (t :: ts) (bt, bn, bd)
          = otsuGo d ts (t, sigmaNum d t, sigmaDen d t) from by
        simp [otsuGo, hc]]
      have hdt : 0 < sigmaDen d t := sigmaDen_pos d t hc.1
      obtain ⟨hrn, hrd, hdom, htail, hshape⟩ :=
        otsuGo_inv d ts t (sigmaNum d t) (sigmaDen d t) (sigmaNum_nonneg d t) hdt
      refine ⟨hrn, hrd, ?_, ?_, ?_⟩
      · -- the result dominates the previous best through the new candidate
        have h1 : bn * sigmaDen d t ≤ sigmaNum d t * bd := le_of_lt hc.2
        have key : (bn * (otsuGo d ts (t, sigmaNum d t, sigmaDen d t)).2.2) * sigmaDen d t ≤
            ((otsuGo d ts (t, sigmaNum d t, sigmaDen d t)).2.1 * bd) * sigmaDen d t := by
          nlinarith [mul_le_mul_of_nonneg_right h1 (le_of_lt hrd),
            mul_le_mul_of_nonneg_right hdom (le_of_lt hbd)]
        exact le_of_mul_le_mul_right key hdt
      · intro u hu hvu
        rcases List.mem_cons.mp hu with rfl | hu
        · exact hdom
        · exact htail u hu hvu
      · rcases hshape with hs | hs
        · right
          rw [hs]
          exact ⟨rfl, rfl⟩
        · right
          exact hs
    · rw [show otsuGo d (t :: ts) (bt, bn, bd) = otsuGo d ts (bt, bn, bd) from by
        simp [otsuGo, hc]]
      obtain ⟨hrn, hrd, hdom, htail, hshape⟩ := otsuGo_inv d ts bt bn bd hbn hbd
      refine ⟨hrn, hrd, hdom, ?_, hshape⟩
      intro u hu hvu
      rcases List.mem_cons.mp hu with rfl | hu
      · -- the rejected candidate is dominated by the old best, hence by the result
        have h1 : sigmaNum d u * bd ≤ bn * sigmaDen d u := by
          by_contra hlt
          exact hc ⟨hvu, lt_of_not_le hlt⟩
        have hdu : 0 < sigmaDen d u := sigmaDen_pos d u hvu
        have key : (sigmaNum d u * (otsuGo d ts (bt, bn, bd)).2.2) * bd ≤
            ((otsuGo d ts (bt, bn, bd)).2.1 * sigmaDen d u) * bd := by
          nlinarith [mul_le_mul_of_nonneg_right h1 (le_of_lt hrd),
            mul_le_mul_of_nonneg_right hdom (le_of_lt hdu)]
        exact le_of_mul_le_mul_right key hbd
      · exact htail u hu hvu

theorem fgAt_all_zero (m : Mat) (h : ∀ q ∈ m.data, q = 0) (p : Int × Int) :
    fgAt m p = false := by
  unfold fgAt
  rw [getD_all_zero m.data _ h]
  simp

theorem scan_const (m : Mat) (hfg : ∀ p, fgAt m p = false) :
    ∀ (l : List (Int × Int)) (st : List (List (Int × Int)) × List (Int × Int)),
      l.foldl (scanStep m) st = st
  | [], _ => rfl
  | p :: l, st => by
    rw [List.foldl_cons]
    have hstep : scanStep m st p = st := by simp [scanStep, hfg p]
    rw [hstep]
    exact scan_const m hfg l st

theorem applyDithering_zero (m : Mat) :
    applyDithering m 0 = threshold 128 255 (toGray m) := by
  simp [applyDithering]

theorem applyDithering_one (m : Mat) :
    applyDithering m 1 = adaptiveThreshold (toGray m) := by
  norm_num [applyDithering]

theorem applyDithering_two (m : Mat) :
    applyDithering m 2 = threshold (otsuThreshold (toGray m).data) 255 (toGray m) := by
  norm_num [applyDithering]

/-- The Otsu threshold maximizes between-class variance: its score dominates
the score of every valid cut `t`, fractions compared by
cross-multiplication. -/
theorem otsu_maximizes (d : List Nat) (t : Nat) (ht : t < 256)
    (hv : validCut d t) :
    sigmaNum d t * sigmaDen d (otsuThreshold d) ≤
      sigmaNum d (otsuThreshold d) * sigmaDen d t := by
  obtain ⟨hrn, hrd, hdom, hall, hshape⟩ :=
    otsuGo_inv d (List.range 256) 0 0 1 (le_refl 0) Int.zero_lt_one
  have hmem : t ∈ List.range 256 := List.mem_range.mpr ht
  have hdomt := hall t hmem hv
  rcases hshape with hs | hs
  · -- no cut ever improved on the zero score, so every valid score is zero
    rw [hs] at hdomt
    simp only at hdomt
    have hnum0 : sigmaNum d t = 0 := by
      have := sigmaNum_nonneg d t
      omega
    rw [hnum0]
    simp only [zero_mul]
    exact mul_nonneg (sigmaNum_nonneg d _) (le_of_lt (sigmaDen_pos d t hv))
  · unfold otsuThreshold
    rw [← hs.1, ← hs.2]
    exact hdomt

/-! ### Claim theorems -/

/-- C1: for every valid (non-null, positive-area) buffer and every chosen
thresholding algorithm of the enumerated selection (FixedGlobal 0,
AdaptiveLocal 1, AutoGlobal 2), the binarize entry point leaves the buffer
single-channel with every pixel holding exactly 0 or 255. -/
theorem c1_binarize_two_level (m : Mat) (alg : Int) (hv : validMat m)
    (ha : alg = 0 ∨ alg = 1 ∨ alg = 2) :
    (applyDithering m alg).channels = 1 ∧
      ∀ p ∈ (applyDithering m alg).data, p = 0 ∨ p = 255 := by
  have hch : (toGray m).channels = 1 := toGray_channels m hv.2.2.1
  rcases ha with rfl | rfl | rfl
  · rw [applyDithering_zero]
    exact ⟨hch, threshold_mem 128 255 (toGray m)⟩
  · rw [applyDithering_one]
    exact ⟨hch, adaptive_mem (toGray m)⟩
  · rw [applyDithering_two]
    exact ⟨hch, threshold_mem _ 255 (toGray m)⟩

theorem c1_witness :
    validMat ⟨1, 1, 1, [100]⟩ ∧
      ((applyDithering ⟨1, 1, 1, [100]⟩ 0).channels = 1 ∧
        ∀ p ∈ (applyDithering ⟨1, 1, 1, [100]⟩ 0).data, p = 0 ∨ p = 255) :=
  ⟨by decide, c1_binarize_two_level ⟨1, 1, 1, [100]⟩ 0 (by decide) (Or.inl rfl)⟩

/-- C2 counterexample: under FixedGlobal (selector 0) with threshold 128, the
claim maps an input pixel equal to the threshold (128 ≥ 128) to the high
level 255, but the code's `THRESH_BINARY` comparison is strict, so the pixel
of value 128 comes out as 0. -/
theorem c2_counterexample :
    (toGray ⟨1, 1, 1, [128]⟩).data.getD 0 0 = 128 ∧
      (applyDithering ⟨1, 1, 1, [128]⟩ 0).data.getD 0 0 = 0 := by
  decide

/-- C2 (amended): under FixedGlobal (selector 0) with threshold 128, a pixel
of the grayscale buffer maps to the high level exactly when it is strictly
greater than 128 (so 127 → low, 128 → low, 129 → high). -/
theorem c2_fixed_global_strict (m : Mat) (i : Nat) (hv : validMat m)
    (hi : i < (toGray m).data.length) :
    ((applyDithering m 0).data.getD i 0 = 255 ↔ 128 < (toGray m).data.getD i 0) ∧
      (applyDithering m 0).data.getD i 0 =
        (if 128 < (toGray m).data.getD i 0 then 255 else 0) := by
  rw [applyDithering_zero]
  have hget : (threshold 128 255 (toGray m)).data.getD i 0 =
      (fun p => if 128 < p then 255 else 0) ((toGray m).data.getD i 0) := by
    unfold threshold
    exact getD_map_of_lt _ _ i hi 0 0
  rw [hget]
  refine ⟨?_, rfl⟩
  by_cases h : 128 < (toGray m).data.getD i 0 <;> simp [h]

theorem c2_witness :
    (validMat ⟨3, 1, 1, [127, 128, 129]⟩ ∧
        2 < (toGray ⟨3, 1, 1, [127, 128, 129]⟩).data.length) ∧
      (((applyDithering ⟨3, 1, 1, [127, 128, 129]⟩ 0).data.getD 2 0 = 255 ↔
          128 < (toGray ⟨3, 1, 1, [127, 128, 129]⟩).data.getD 2 0) ∧
        (applyDithering ⟨3, 1, 1, [127, 128, 129]⟩ 0).data.getD 2 0 =
          (if 128 < (toGray ⟨3, 1, 1, [127, 128, 129]⟩).data.getD 2 0 then 255
            else 0)) :=
  ⟨⟨by decide, by decide⟩,
    c2_fixed_global_strict ⟨3, 1, 1, [127, 128, 129]⟩ 2 (by decide) (by decide)⟩

/-- C3 evaluation: the binarize entry point performs no validation. A null
buffer address is dereferenced unconditionally (undefined behaviour, not an
`InvalidBuffer` failure), and a zero-sized buffer is processed silently as a
successful no-op rather than rejected. -/
theorem c3_no_validation :
    nativeApplyDithering none 0 = Except.error JniErr.nullDereference ∧
      nativeApplyDithering (some ⟨0, 0, 1, []⟩) 0 = Except.ok ⟨0, 0, 1, []⟩ :=
  ⟨rfl, rfl⟩

/-- C4: the contour-tracing entry point returns the caller's buffer
observably unchanged — pixel contents, dimensions and channel count after
the call are those before it (the record equality covers all fields). -/
theorem c4_trace_frame (m : Mat) : (nativeFindContours m).2 = m := rfl

/-- C5: for every selector outside {0, 1, 2}, the binarize entry point
performs only the grayscale reduction — the buffer equals the
grayscale-only conversion, and an already single-channel buffer is left
entirely unchanged. -/
theorem c5_unknown_selector_noop (m : Mat) (alg : Int)
    (h0 : alg ≠ 0) (h1 : alg ≠ 1) (h2 : alg ≠ 2) :
    applyDithering m alg = toGray m ∧
      (m.channels = 1 → applyDithering m alg = m) := by
  have e : applyDithering m alg = toGray m := by
    simp [applyDithering, h0, h1, h2]
  exact ⟨e, fun hc => by rw [e, toGray_of_single m hc]⟩

theorem c5_witness :
    applyDithering ⟨1, 1, 1, [42]⟩ 7 = toGray ⟨1, 1, 1, [42]⟩ ∧
      (Mat.channels ⟨1, 1, 1, [42]⟩ = 1 →
        applyDithering ⟨1, 1, 1, [42]⟩ 7 = ⟨1, 1, 1, [42]⟩) :=
  c5_unknown_selector_noop ⟨1, 1, 1, [42]⟩ 7 (by decide) (by decide) (by decide)

/-- C6 counterexample: on the bimodal image whose pixels cluster at values
10 and 240, the computed Otsu threshold is 10 — the lower cluster value, the
first cut of maximal between-class variance — and therefore does not lie
strictly between the two clusters as the claim states. -/
theorem c6_counterexample :
    otsuThreshold (toGray ⟨8, 1, 1, [10, 10, 10, 10, 240, 240, 240, 240]⟩).data = 10 ∧
      ¬(10 < otsuThreshold
            (toGray ⟨8, 1, 1, [10, 10, 10, 10, 240, 240, 240, 240]⟩).data ∧
          otsuThreshold
            (toGray ⟨8, 1, 1, [10, 10, 10, 10, 240, 240, 240, 240]⟩).data < 240) := by
  decide

/-- C6 (amended): under AutoGlobal (selector 2) the threshold maximizes
between-class variance over the image histogram — its score dominates the
score of every cut that splits the pixels into two non-empty classes
(fractions compared by cross-multiplication in exact arithmetic) — and it is
then applied as a fixed global threshold with the strict comparison. On a
bimodal image the first maximizing cut is the lower cluster value itself, so
the threshold separates the clusters but need not lie strictly between
them. -/
theorem c6_otsu_maximizes_applied (m : Mat) (t : Nat) (ht : t < 256)
    (hv : validCut (toGray m).data t) :
    sigmaNum (toGray m).data t *
        sigmaDen (toGray m).data (otsuThreshold (toGray m).data) ≤
      sigmaNum (toGray m).data (otsuThreshold (toGray m).data) *
        sigmaDen (toGray m).data t ∧
    (applyDithering m 2).data =
      (toGray m).data.map
        fun p => if otsuThreshold (toGray m).data < p then 255 else 0 := by
  refine ⟨otsu_maximizes _ t ht hv, ?_⟩
  rw [applyDithering_two]
  rfl

theorem c6_witness :
    (100 < 256 ∧
        validCut (toGray ⟨8, 1, 1, [10, 10, 10, 10, 240, 240, 240, 240]⟩).data 100) ∧
      (sigmaNum (toGray ⟨8, 1, 1, [10, 10, 10, 10, 240, 240, 240, 240]⟩).data 100 *
            sigmaDen (toGray ⟨8, 1, 1, [10, 10, 10, 10, 240, 240, 240, 240]⟩).data
              (otsuThreshold
                (toGray ⟨8, 1, 1, [10, 10, 10, 10, 240, 240, 240, 240]⟩).data) ≤
          sigmaNum (toGray ⟨8, 1, 1, [10, 10, 10, 10, 240, 240, 240, 240]⟩).data
              (otsuThreshold
                (toGray ⟨8, 1, 1, [10, 10, 10, 10, 240, 240, 240, 240]⟩).data) *
            sigmaDen (toGray ⟨8, 1, 1, [10, 10, 10, 10, 240, 240, 240, 240]⟩).data
              100 ∧
        (applyDithering ⟨8, 1, 1, [10, 10, 10, 10, 240, 240, 240, 240]⟩ 2).data =
          (toGray ⟨8, 1, 1, [10, 10, 10, 10, 240, 240, 240, 240]⟩).data.map
            fun p =>
              if otsuThreshold
                    (toGray ⟨8, 1, 1, [10, 10, 10, 10, 240, 240, 240, 240]⟩).data <
                  p then 255
              else 0) :=
  ⟨⟨by decide, by decide⟩,
    c6_otsu_maximizes_applied ⟨8, 1, 1, [10, 10, 10, 10, 240, 240, 240, 240]⟩ 100
      (by decide) (by decide)⟩

/-- C7: on a buffer containing only background (zero) pixels the contour
trace produces an empty contour sequence and the returned count is 0. -/
theorem c7_all_background (m : Mat) (h : ∀ p ∈ m.data, p = 0) :
    (traceContours m).contours = [] ∧ (nativeFindContours m).1 = 0 := by
  have hfg : ∀ p, fgAt m p = false := fgAt_all_zero m h
  have hraw : rawContours m = [] := by
    unfold rawContours
    rw [scan_const m hfg (scanOrder m) ([], [])]
  refine ⟨by simp [traceContours, hraw], ?_⟩
  simp [nativeFindContours, traceContours, hraw]

theorem c7_witness :
    (∀ p ∈ Mat.data ⟨2, 2, 1, [0, 0, 0, 0]⟩, p = 0) ∧
      ((traceContours ⟨2, 2, 1, [0, 0, 0, 0]⟩).contours = [] ∧
        (nativeFindContours ⟨2, 2, 1, [0, 0, 0, 0]⟩).1 = 0) :=
  ⟨by decide, c7_all_background ⟨2, 2, 1, [0, 0, 0, 0]⟩ (by decide)⟩

/-- C8: the contour trace is deterministic — a second invocation on the
buffer handed back by the first yields the same ordered contour sequence,
the same hierarchy, and the same count; the operation is a pure function of
the buffer, with no hidden state between calls. -/
theorem c8_trace_deterministic (m : Mat) :
    traceContours ((nativeFindContours m).2) = traceContours m ∧
      (nativeFindContours ((nativeFindContours m).2)).1 =
        (nativeFindContours m).1 :=
  ⟨rfl, rfl⟩

/-- C9 counterexample: on a single-channel buffer the grayscale report does
not return the status string — the library's BGR→gray conversion asserts a
3- or 4-channel source, so the call raises instead. -/
theorem c9_counterexample :
    (nativeProcessImage ⟨1, 1, 1, [7]⟩).1 =
      Except.error JniErr.unsupportedChannelLayout := rfl

/-- C9 (amended): the grayscale report never modifies the caller's buffer —
on every path the buffer is handed back unchanged — and on every 3-channel
buffer it returns the status string "Image processed: <width>x<height>"
built from the original dimensions; a buffer whose channel layout the
conversion rejects yields an error instead of the string. -/
theorem c9_process_image_frame (m : Mat) :
    (nativeProcessImage m).2 = m ∧
      (m.channels = 3 → (nativeProcessImage m).1 =
        Except.ok ("Image processed: " ++ toString m.width ++ "x" ++
          toString m.height)) := by
  constructor
  · unfold nativeProcessImage
    by_cases h : m.channels = 3 ∨ m.channels = 4 <;> simp [h]
  · intro h
    unfold nativeProcessImage
    rw [if_pos (Or.inl h)]

theorem c9_witness :
    (nativeProcessImage ⟨2, 1, 3, [1, 2, 3, 4, 5, 6]⟩).2 =
        ⟨2, 1, 3, [1, 2, 3, 4, 5, 6]⟩ ∧
      (nativeProcessImage ⟨2, 1, 3, [1, 2, 3, 4, 5, 6]⟩).1 =
        Except.ok "Image processed: 2x1" :=
  ⟨(c9_process_image_frame ⟨2, 1, 3, [1, 2, 3, 4, 5, 6]⟩).1, by
    rw [(c9_process_image_frame ⟨2, 1, 3, [1, 2, 3, 4, 5, 6]⟩).2 rfl]
    rfl⟩

/-- C10: binarize with FixedGlobal (selector 0) is idempotent on valid
single-channel buffers — applying it twice equals applying it once, because
both output levels are fixed points of the strict threshold at 128
(255 > 128 and ¬(0 > 128)). -/
theorem c10_fixed_global_idempotent (m : Mat) (hv : validMat m)
    (hc : m.channels = 1) :
    applyDithering (applyDithering m 0) 0 = applyDithering m 0 := by
  rw [applyDithering_zero m, toGray_of_single m hc]
  have hch : (threshold 128 255 m).channels = 1 := hc
  rw [applyDithering_zero, toGray_of_single _ hch]
  show threshold 128 255 (threshold 128 255 m) = threshold 128 255 m
  unfold threshold
  congr 1
  rw [List.map_map]
  refine List.map_congr_left ?_
  intro a _
  by_cases h : 128 < a <;> simp [Function.comp, h]

theorem c10_witness :
    (validMat ⟨2, 1, 1, [5, 200]⟩ ∧ Mat.channels ⟨2, 1, 1, [5, 200]⟩ = 1) ∧
      applyDithering (applyDithering ⟨2, 1, 1, [5, 200]⟩ 0) 0 =
        applyDithering ⟨2, 1, 1, [5, 200]⟩ 0 :=
  ⟨⟨by decide, by decide⟩,
    c10_fixed_global_idempotent ⟨2, 1, 1, [5, 200]⟩ (by decide) (by decide)⟩
